import Mathlib

/-!
Formal model of the SpectraCloud Raman pipeline core
(`backend/app/ml/prototypes.py`, `backend/app/ml/features.py`,
`backend/app/pipeline/raman_preprocess_array.py`,
`backend/app/pipeline/raman_preprocess.py`).

Numpy float64 arithmetic is modelled as exact real arithmetic (`ℝ`);
1-D arrays are `List ℝ`; Python dicts are association lists in insertion
order (CPython dicts iterate in insertion order and have unique keys).
Fallible functions return `Except`.
-/

/-! ### `ml/prototypes.py` -/

/-- Epsilon guard of `l2_normalize` (Python default `eps = 1e-12`). -/
noncomputable def eps : ℝ := 1 / 10 ^ 12

/-- Dot product of two 1-D arrays over their zipped common prefix.
`np.dot` additionally rejects unequal lengths; that check is placed in
`cosine_sim` below, where the source calls `np.dot`. -/
noncomputable def dotp (a b : List ℝ) : ℝ :=
  ((a.zip b).map fun p => p.1 * p.2).sum

/-- The Euclidean norm `np.linalg.norm(v)`. -/
noncomputable def normE (v : List ℝ) : ℝ :=
  Real.sqrt (dotp v v)

/-- Source `l2_normalize(v, eps=1e-12) = v / (np.linalg.norm(v) + eps)`. -/
noncomputable def l2_normalize (v : List ℝ) : List ℝ :=
  v.map fun t => t / (normE v + eps)

/-- Error taxonomy of the classifier (spec section 7): the source raises
`ValueError` in both cases, distinguished by message. -/
inductive PredictError where
  | emptyPrototypeSet
  | dimensionMismatch

/-- Source `cosine_sim(a, b) = float(np.dot(l2_normalize(a), l2_normalize(b)))`.
`np.dot` raises on 1-D shape mismatch, modelled as `DimensionMismatch`. -/
noncomputable def cosine_sim (a b : List ℝ) : Except PredictError ℝ :=
  if (l2_normalize a).length = (l2_normalize b).length then
    .ok (dotp (l2_normalize a) (l2_normalize b))
  else .error .dimensionMismatch

/-- The value `cosine_sim` returns in its non-error case. -/
noncomputable def cosVal (a b : List ℝ) : ℝ :=
  dotp (l2_normalize a) (l2_normalize b)

/-- The score-building loop of `predict_with_prototypes`: the first
exception raised by `cosine_sim` aborts the whole loop. -/
noncomputable def scoreAll (v : List ℝ) :
    List (String × List ℝ) → Except PredictError (List (String × ℝ))
  | [] => .ok []
  | (lab, proto) :: rest => do
    let s ← cosine_sim v proto
    let tail ← scoreAll v rest
    .ok ((lab, s) :: tail)

/-- Python `max(scores, key=scores.get)` starting from a first candidate:
a later entry replaces the current best only when strictly greater, so the
first entry attaining the maximum (in iteration order) wins. -/
noncomputable def pyMax (best : String × ℝ) : List (String × ℝ) → String × ℝ
  | [] => best
  | q :: rest => pyMax (if best.2 < q.2 then q else best) rest

/-- Source `predict_with_prototypes(feature_vec, prototypes)`; returns
`(best_label, best_score, all_scores)`.  The `.ok []` branch is
unreachable (`scoreAll` on a nonempty list is nonempty). -/
noncomputable def predict_with_prototypes (feature_vec : List ℝ)
    (prototypes : List (String × List ℝ)) :
    Except PredictError (String × ℝ × List (String × ℝ)) :=
  if prototypes.isEmpty then .error .emptyPrototypeSet
  else
    match scoreAll feature_vec prototypes with
    | .error e => .error e
    | .ok [] => .error .emptyPrototypeSet
    | .ok (s :: rest) =>
      let best := pyMax s rest
      .ok (best.1, ((s :: rest).lookup best.1).getD 0, s :: rest)

/-- Error raised by `build_class_prototypes` on a badly-shaped feature
block (`feats.ndim != 2 or feats.shape[0] == 0`). -/
inductive BuildError where
  | badFeats

/-- Columnwise arithmetic mean `np.mean(feats, axis=0)` of a rectangular
block of rows. -/
noncomputable def meanVec (feats : List (List ℝ)) : List ℝ :=
  (List.range (feats.headD []).length).map fun j =>
    (feats.map fun r => r.getD j 0).sum / feats.length

/-- Source `build_class_prototypes(features_by_label)`: for each label in
insertion order, checks the block is a nonempty 2-D array, then stores
`l2_normalize(feats.mean(axis=0))`. -/
noncomputable def build_class_prototypes :
    List (String × List (List ℝ)) → Except BuildError (List (String × List ℝ))
  | [] => .ok []
  | (lab, feats) :: rest =>
    if feats.length = 0 ∨ ¬ feats.all fun r => r.length = (feats.headD []).length then
      .error .badFeats
    else do
      let tail ← build_class_prototypes rest
      .ok ((lab, l2_normalize (meanVec feats)) :: tail)

/-! ### Shared numeric helpers (numpy reductions) -/

/-- Reduction `np.min` over a 1-D array (undefined on empty input; the
call sites guard nonemptiness, the `headD 0` seed is then harmless). -/
noncomputable def listMin (y : List ℝ) : ℝ := y.foldl min (y.headD 0)

/-- Reduction `np.max` over a 1-D array. -/
noncomputable def listMax (y : List ℝ) : ℝ := y.foldl max (y.headD 0)

/-- Reduction `np.mean`. -/
noncomputable def meanL (y : List ℝ) : ℝ := y.sum / y.length

/-- Population standard deviation `np.std`. -/
noncomputable def stdL (y : List ℝ) : ℝ :=
  Real.sqrt (meanL (y.map fun t => (t - meanL y) ^ 2))

/-- First difference `np.diff`. -/
noncomputable def diffs (y : List ℝ) : List ℝ :=
  (y.zip y.tail).map fun p => p.2 - p.1

/-! ### `pipeline/raman_preprocess_array.py` and `pipeline/raman_preprocess.py` -/

/-- Output record of both preprocessors. -/
structure ConditionedSpectrum where
  x : List ℝ
  y_raw : List ℝ
  y_processed : List ℝ

/-- Error taxonomy of the preprocessors (the source raises `ValueError`
with distinct messages). -/
inductive PreprocessError where
  | lengthMismatch
  | tooFewPoints
  | constantSignal
  | duplicateX
  | badNormalizeMode

/-- Source `_moving_average(y, window)`: window forced odd and at least 3,
edge padding by `pad = window // 2`, uniform kernel, valid convolution
(output length equals the input length). -/
noncomputable def moving_average_arr (y : List ℝ) (window : ℕ) : List ℝ :=
  let w0 := max 3 window
  let w := if w0 % 2 = 0 then w0 + 1 else w0
  let pad := w / 2
  let ypad := List.replicate pad (y.headD 0) ++ y ++ List.replicate pad (y.getLastD 0)
  (List.range (ypad.length + 1 - w)).map fun i =>
    (((List.range w).map fun j => ypad.getD (i + j) 0).sum) / w

/-- Coefficients of `np.polyfit(x, y, deg)` (highest power first),
modelled as the least-squares solution through the normal equations
`(VᵀV) c = Vᵀ y` of the Vandermonde system; for a full-rank system this
is exactly the unique least-squares minimizer numpy computes. -/
noncomputable def polyfit (x y : List ℝ) (deg : ℕ) : Fin (deg + 1) → ℝ :=
  let V : Matrix (Fin x.length) (Fin (deg + 1)) ℝ :=
    fun i j => x.getD i 0 ^ (deg - (j : ℕ))
  (V.transpose * V)⁻¹.mulVec (V.transpose.mulVec fun i => y.getD i 0)

/-- Evaluation `np.polyval(c, t)` for highest-power-first coefficients. -/
noncomputable def polyval {deg : ℕ} (c : Fin (deg + 1) → ℝ) (t : ℝ) : ℝ :=
  ∑ j : Fin (deg + 1), c j * t ^ (deg - (j : ℕ))

/-- Source `_poly_baseline(x, y, deg)` with `deg` clipped into `[1, 8]`. -/
noncomputable def poly_baseline (x y : List ℝ) (deg : ℕ) : List ℝ :=
  let d := min (max deg 1) 8
  x.map (polyval (polyfit x y d))

/-- The `normalize == "minmax"` block of `preprocess_spectrum_array`
(lines 66–70): shift by the minimum and divide by the range, dividing by
`1.0` instead when the range is exactly zero. -/
noncomputable def minmax_scale (y : List ℝ) : List ℝ :=
  let mn := listMin y
  let mx := listMax y
  let denom := if mx - mn ≠ 0 then mx - mn else 1
  y.map fun t => (t - mn) / denom

/-- The `normalize == "zscore"` block of `preprocess_spectrum_array`. -/
noncomputable def zscore_scale (y : List ℝ) : List ℝ :=
  let mu := meanL y
  let sd := stdL y
  y.map fun t => (t - mu) / (if sd ≠ 0 then sd else 1)

/-- The sorting step `idx = np.argsort(x); x = x[idx]; y_raw = y[idx]` of
`preprocess_spectrum_array`, on the zipped pairs.  `np.argsort` is
introsort-based and unspecified among duplicate wavenumbers; it is
modelled by a stable sort, and no claim depends on the order of `y`
entries among duplicates. -/
noncomputable def sort_pairs (x y : List ℝ) : List (ℝ × ℝ) :=
  List.insertionSort (fun p q : ℝ × ℝ => p.1 ≤ q.1) (x.zip y)

/-- The crop step of `preprocess_spectrum_array`: restrict to the bounds
only when at least 20 points survive, else keep everything. -/
noncomputable def crop_pairs (crop : Option (ℝ × ℝ)) (sorted : List (ℝ × ℝ)) :
    List (ℝ × ℝ) :=
  match crop with
  | none => sorted
  | some (lo, hi) =>
    let m := sorted.filter fun p : ℝ × ℝ => decide (lo ≤ p.1 ∧ p.1 ≤ hi)
    if 20 ≤ m.length then m else sorted

/-- The smoothing and baseline-correction steps of
`preprocess_spectrum_array` on the sorted/cropped pairs:
`y_bc = _moving_average(y_raw) - _poly_baseline(x, y_smooth)`. -/
noncomputable def baseline_corrected (kept : List (ℝ × ℝ))
    (smooth_window baseline_deg : ℕ) : List ℝ :=
  let ysmooth := moving_average_arr (kept.map Prod.snd) smooth_window
  (ysmooth.zip (poly_baseline (kept.map Prod.fst) ysmooth baseline_deg)).map
    fun p => p.1 - p.2

/-- Source `preprocess_spectrum_array(x, y, crop=..., smooth_window=...,
baseline_deg=..., normalize=...)`. -/
noncomputable def preprocess_spectrum_array (x y : List ℝ)
    (crop : Option (ℝ × ℝ)) (smooth_window : ℕ) (baseline_deg : ℕ)
    (normalize : String) : Except PreprocessError ConditionedSpectrum :=
  if x.length ≠ y.length then .error .lengthMismatch
  else if x.length < 20 then .error .tooFewPoints
  else
    let kept := crop_pairs crop (sort_pairs x y)
    let xs := kept.map Prod.fst
    let yraw := kept.map Prod.snd
    let ybc := baseline_corrected kept smooth_window baseline_deg
    if normalize = "minmax" then .ok ⟨xs, yraw, minmax_scale ybc⟩
    else if normalize = "zscore" then .ok ⟨xs, yraw, zscore_scale ybc⟩
    else if normalize = "none" then .ok ⟨xs, yraw, ybc⟩
    else .error .badNormalizeMode

/-- Source `moving_average(y, window)` of the CSV pipeline: returned
unchanged for `window < 3`, else odd-forced window, uniform kernel,
`np.convolve(..., mode="same")` (implicit zero padding, centred crop). -/
noncomputable def moving_average_same (y : List ℝ) (window : ℕ) : List ℝ :=
  if window < 3 then y
  else
    let w := if window % 2 = 0 then window + 1 else window
    let off := (w - 1) / 2
    (List.range y.length).map fun i =>
      (((List.range w).map fun j =>
        if i + j < off then 0 else y.getD (i + j - off) 0).sum) / w

/-- Source `baseline_subtract(y, poly_deg)`: fits the polynomial over the
index grid `np.arange(len(y))` and subtracts its evaluation. -/
noncomputable def baseline_subtract (y : List ℝ) (deg : ℕ) : List ℝ :=
  let xs := (List.range y.length).map fun i => (i : ℝ)
  let c := polyfit xs y deg
  (y.zip (xs.map (polyval c))).map fun p => p.1 - p.2

/-- Source `normalize_minmax(y)`: when the range is below `1e-12` the
input is returned unchanged, otherwise shifted by the minimum and scaled
by the range. -/
noncomputable def normalize_minmax (y : List ℝ) : List ℝ :=
  if listMax y - listMin y < 1 / 10 ^ 12 then y
  else y.map fun t => (t - listMin y) / (listMax y - listMin y)

/-- Source `preprocess_spectrum(df)` on the two extracted columns.  The
`np.isfinite` guard has no content in the exact-real model (every `ℝ` is
finite) and is omitted; the `np.allclose(y_raw, y_raw[0])` constant-signal
guard uses numpy tolerances `atol=1e-8`, `rtol=1e-5`. -/
noncomputable def preprocess_spectrum (x y : List ℝ) :
    Except PreprocessError ConditionedSpectrum :=
  if y.all fun t => decide (|t - y.headD 0| ≤ 1 / 10 ^ 8 + 1 / 10 ^ 5 * |y.headD 0|) then
    .error .constantSignal
  else if (diffs x).any fun t => decide (t = 0) then
    .error .duplicateX
  else
    let ysmooth := moving_average_same y 11
    let ybase := baseline_subtract ysmooth 3
    .ok ⟨x, y, normalize_minmax ybase⟩

/-! ### `ml/features.py` — peak detection (scipy `find_peaks`)

The detection kernel is stated over an arbitrary linear ordered field so
that the very same definitions can be evaluated on `ℚ` inputs (the
program only performs field operations and comparisons on the samples);
`extract_raman_features` instantiates them at `ℝ`. -/

/-- Advance to the end of a plateau: first index `j` at or after the start
that leaves the plateau of value `y[i]` (scipy inner `while` loop of
`_local_maxima_1d`). -/
def plateauEnd {α : Type} [LinearOrderedRing α] (y : List α) (iMax i : ℕ) :
    ℕ → ℕ → ℕ
  | 0, j => j
  | fuel + 1, j =>
    if j < iMax ∧ y.getD j 0 = y.getD i 0 then plateauEnd y iMax i fuel (j + 1)
    else j

/-- Main loop of scipy `_local_maxima_1d`: strictly rising edge, plateau
scan, strictly falling edge, midpoint recorded, scan resumes after the
plateau. -/
def lmAux {α : Type} [LinearOrderedRing α] (y : List α) (iMax : ℕ) :
    ℕ → ℕ → List ℕ
  | 0, _ => []
  | fuel + 1, i =>
    if i < iMax then
      if y.getD (i - 1) 0 < y.getD i 0 then
        let iA := plateauEnd y iMax i y.length (i + 1)
        if y.getD iA 0 < y.getD i 0 then
          (i + (iA - 1)) / 2 :: lmAux y iMax fuel (iA + 1)
        else lmAux y iMax fuel (i + 1)
      else lmAux y iMax fuel (i + 1)
    else []

/-- scipy `_local_maxima_1d(y)`: indices of local maxima (plateaus give
their midpoint); the first and last sample are never maxima. -/
def localMaxima {α : Type} [LinearOrderedRing α] (y : List α) : List ℕ :=
  lmAux y (y.length - 1) y.length 1

/-- Leftward walk of scipy `_peak_prominences`: from index `i` downwards
while the samples do not exceed `ref`, returning the minimum seen. -/
def leftMinW {α : Type} [LinearOrderedRing α] (y : List α) (ref : α) :
    ℕ → α → α
  | 0, acc => if y.getD 0 0 ≤ ref then min acc (y.getD 0 0) else acc
  | i + 1, acc =>
    if y.getD (i + 1) 0 ≤ ref then leftMinW y ref i (min acc (y.getD (i + 1) 0))
    else acc

/-- Rightward walk of scipy `_peak_prominences`: from index `i` upwards to
`iMax` while the samples do not exceed `ref`. -/
def rightMinW {α : Type} [LinearOrderedRing α] (y : List α) (ref : α)
    (iMax : ℕ) : ℕ → ℕ → α → α
  | 0, _, acc => acc
  | fuel + 1, i, acc =>
    if i ≤ iMax ∧ y.getD i 0 ≤ ref then
      rightMinW y ref iMax fuel (i + 1) (min acc (y.getD i 0))
    else acc

/-- scipy `_peak_prominences(y, peaks, wlen=-1)`: prominence of each peak
is its height minus the higher of the two base minima. -/
def peakProminences {α : Type} [LinearOrderedRing α] (y : List α)
    (peaks : List ℕ) : List α :=
  peaks.map fun p =>
    let ref := y.getD p 0
    ref - max (leftMinW y ref p ref)
              (rightMinW y ref (y.length - 1) (y.length + 1) p ref)

/-- scipy `find_peaks(y, prominence=promMin)` restricted to what the
source uses: local maxima filtered by `promMin ≤ prominence`, returning
the surviving peaks and their prominences in position order. -/
def findPeaksProm {α : Type} [LinearOrderedRing α] (y : List α)
    (promMin : α) : List ℕ × List α :=
  let pks := localMaxima y
  let prms := peakProminences y pks
  let kept := (pks.zip prms).filter fun pr => decide (promMin ≤ pr.2)
  (kept.map Prod.fst, kept.map Prod.snd)

/-- Peak-feature block of `extract_raman_features` (features.py lines
69–88): three zero-initialised arrays of length `max_peaks`; detected
peaks are reordered by height descending (`np.argsort(heights)[::-1]`,
modelled as a stable ascending sort reversed — no claim depends on the
order among equal heights); positions and heights are taken from the
reordered peaks, but the prominence slots are filled from
`prominences[:k]` in the original detection order. -/
def peakFeatures {α : Type} [LinearOrderedRing α] (x y : List α)
    (maxPeaks : ℕ) (promMin : α) : α × List α × List α × List α :=
  let r := findPeaksProm y promMin
  let peakCount : α := r.1.length
  if r.1.length = 0 then
    (peakCount, List.replicate maxPeaks 0, List.replicate maxPeaks 0,
     List.replicate maxPeaks 0)
  else
    let sorted :=
      (List.insertionSort (fun i j => y.getD i 0 ≤ y.getD j 0) r.1).reverse
    let k := min maxPeaks sorted.length
    let idxs := sorted.take k
    (peakCount,
     idxs.map (fun i => x.getD i 0) ++ List.replicate (maxPeaks - k) 0,
     idxs.map (fun i => y.getD i 0) ++ List.replicate (maxPeaks - k) 0,
     r.2.take k ++ List.replicate (maxPeaks - k) 0)

/-! ### `ml/features.py` — `extract_raman_features` -/

/-- Error raised by `extract_raman_features` (a `ValueError` in the
source: unequal lengths or fewer than 10 samples). -/
inductive FeatureError where
  | badInput

/-- Source `_safe_div(a, b)`. -/
noncomputable def safe_div (a b : ℝ) : ℝ := if b ≠ 0 then a / b else 0

/-- Linear-interpolation percentile `np.percentile(y, q)` (also used for
`np.median` via `q = 50`, with which it agrees). -/
noncomputable def percentile (y : List ℝ) (q : ℝ) : ℝ :=
  let s := List.insertionSort (fun a b : ℝ => a ≤ b) y
  let h : ℝ := ((y.length - 1 : ℕ) : ℝ) * q / 100
  let f : ℕ := ⌊h⌋₊
  let lo := s.getD f 0
  let hi := s.getD (min (f + 1) (y.length - 1)) 0
  lo + (h - (f : ℝ)) * (hi - lo)

/-- Pointwise `np.sign`. -/
noncomputable def signR (t : ℝ) : ℝ := if t < 0 then -1 else if t = 0 then 0 else 1

/-- Trapezoidal rule `np.trapezoid(y, x)`. -/
noncomputable def trapz (y x : List ℝ) : ℝ :=
  ((List.range (x.length - 1)).map fun i =>
    (x.getD (i + 1) 0 - x.getD i 0) * (y.getD (i + 1) 0 + y.getD i 0) / 2).sum

/-- Source `extract_raman_features(x, y, max_peaks=..., peak_prominence=...)`.
The module-level `try: from scipy.signal import find_peaks` fallback is
modelled by the explicit capability flag `findPeaksAvailable`. -/
noncomputable def extract_raman_features (x y : List ℝ) (maxPeaks : ℕ)
    (peakProm : ℝ) (findPeaksAvailable : Bool) :
    Except FeatureError (List ℝ) :=
  if x.length ≠ y.length ∨ x.length < 10 then .error .badInput
  else
    let yMin := listMin y
    let yMax := listMax y
    let dy := diffs y
    let signChanges : ℝ := (((diffs (dy.map signR)).countP fun t => decide (t ≠ 0) : ℕ) : ℝ)
    let energy := (y.map fun t => t * t).sum
    let l1 := (y.map abs).sum
    let l2 := Real.sqrt energy
    let yShift := y.map fun t => t - yMin
    let wSum := yShift.sum
    let centroid := if 0 < wSum then dotp x yShift / wSum else meanL x
    let spread :=
      if 0 < wSum then
        Real.sqrt (dotp (x.map fun t => (t - centroid) ^ 2) yShift / wSum)
      else stdL x
    let pk :=
      if findPeaksAvailable then
        peakFeatures x y maxPeaks (peakProm * (if yMax ≠ yMin then yMax - yMin else 1))
      else ((0 : ℝ), List.replicate maxPeaks 0, List.replicate maxPeaks 0,
            List.replicate maxPeaks 0)
    .ok ([yMin, yMax, meanL y, stdL y, percentile y 50, percentile y 75 - percentile y 25,
          meanL (dy.map fun t => |t|), stdL (dy.map fun t => |t|), signChanges,
          trapz y x, energy, l1, l2, safe_div l1 l2,
          centroid, spread, pk.1] ++ pk.2.1 ++ pk.2.2.1 ++ pk.2.2.2)

/-! ### Concrete inputs used by counterexamples and failing-input evidence -/

/-- Wavenumber grid for the peak-misalignment evidence (integer samples,
over which the peak kernel evaluates in the kernel). -/
def xPeaks : List ℤ := [0, 1, 2, 3, 4, 5, 6, 7, 8, 9, 10, 11]

/-- Conditioned intensity with two peaks: height 100 (prominence 100) at
index 1 and height 300 (prominence 300) at index 5; with
`peak_prominence = 0.02` the source's threshold is `0.02·(300−0) = 6`. -/
def yPeaks : List ℤ := [0, 100, 0, 0, 0, 300, 0, 0, 0, 0, 0, 0]

/-- The score both tying labels receive in the tie-break counterexample. -/
noncomputable def selfSimUnit : ℝ := cosVal [1, 0] [1, 0]

/-- A nonzero vector of norm comparable to the epsilon guard
(`1e-13`, one tenth of `eps`). -/
noncomputable def tinyV : List ℝ := [1 / 10 ^ 13]

/-- A 20-point constant (zero-range) signal. -/
noncomputable def constSig : List ℝ :=
  [1, 1, 1, 1, 1, 1, 1, 1, 1, 1, 1, 1, 1, 1, 1, 1, 1, 1, 1, 1]

/-- A 20-point wavenumber axis, already ascending but with a duplicated
wavenumber (10 appears twice). -/
noncomputable def xdup : List ℝ :=
  [1, 2, 3, 4, 5, 6, 7, 8, 9, 10, 10, 11, 12, 13, 14, 15, 16, 17, 18, 19]

/-- A 20-point strictly increasing wavenumber axis for the CSV pipeline. -/
noncomputable def xcsv : List ℝ :=
  [1, 2, 3, 4, 5, 6, 7, 8, 9, 10, 11, 12, 13, 14, 15, 16, 17, 18, 19, 20]

/-- A 20-point non-constant intensity signal for the CSV pipeline. -/
noncomputable def ycsv : List ℝ :=
  [0, 1, 1, 1, 1, 1, 1, 1, 1, 1, 1, 1, 1, 1, 1, 1, 1, 1, 1, 1]

/-! ### Helper lemmas -/

theorem l2_normalize_length (v : List ℝ) : (l2_normalize v).length = v.length := by
  simp [l2_normalize]

theorem cosine_sim_ok (a b : List ℝ) (h : b.length = a.length) :
    cosine_sim a b = .ok (cosVal a b) := by
  simp [cosine_sim, cosVal, l2_normalize_length, h]

theorem cosine_sim_mismatch (a b : List ℝ) (h : b.length ≠ a.length) :
    cosine_sim a b = .error .dimensionMismatch := by
  simp [cosine_sim, l2_normalize_length]
  intro hc
  exact absurd hc.symm h

theorem scoreAll_ok (v : List ℝ) :
    ∀ protos : List (String × List ℝ), (∀ p ∈ protos, (p.2).length = v.length) →
      scoreAll v protos = .ok (protos.map fun p => (p.1, cosVal v p.2))
  | [], _ => rfl
  | (lab, proto) :: rest, h => by
    have h1 : proto.length = v.length := h (lab, proto) (List.mem_cons_self _ _)
    have h2 := scoreAll_ok v rest fun p hp => h p (List.mem_cons_of_mem _ hp)
    simp [scoreAll, cosine_sim_ok v proto h1, h2, cosVal, Bind.bind, Except.bind]

theorem le_pyMax : ∀ (l : List (String × ℝ)) (best : String × ℝ),
    best.2 ≤ (pyMax best l).2
  | [], _ => le_rfl
  | q :: rest, best => by
    rw [pyMax]
    rcases le_or_lt q.2 best.2 with h | h
    · rw [if_neg (not_lt.mpr h)]
      exact le_pyMax rest best
    · rw [if_pos h]
      exact h.le.trans (le_pyMax rest q)

theorem pyMax_spec : ∀ (l : List (String × ℝ)) (best : String × ℝ),
    ∃ pre suf, best :: l = pre ++ pyMax best l :: suf
      ∧ (∀ q ∈ pre, q.2 < (pyMax best l).2)
      ∧ (∀ q ∈ suf, q.2 ≤ (pyMax best l).2)
  | [], best => ⟨[], [], rfl, by simp, by simp⟩
  | q :: rest, best => by
    rcases lt_or_le best.2 q.2 with hlt | hle
    · have hfold : pyMax best (q :: rest) = pyMax q rest := by
        rw [pyMax, if_pos hlt]
      obtain ⟨pre, suf, hsplit, hpre, hsuf⟩ := pyMax_spec rest q
      refine ⟨best :: pre, suf, ?_, ?_, ?_⟩
      · rw [hfold, List.cons_append, ← hsplit]
      · intro t ht
        rw [hfold]
        rcases List.mem_cons.mp ht with rfl | ht
        · exact hlt.trans_le (le_pyMax rest q)
        · exact hpre t ht
      · intro t ht
        rw [hfold]
        exact hsuf t ht
    · have hfold : pyMax best (q :: rest) = pyMax best rest := by
        rw [pyMax, if_neg (not_lt.mpr hle)]
      obtain ⟨pre, suf, hsplit, hpre, hsuf⟩ := pyMax_spec rest best
      rcases pre with _ | ⟨p, pre2⟩
      · obtain ⟨hb, hs⟩ : best = pyMax best rest ∧ rest = suf := by
          simpa using hsplit
        refine ⟨[], q :: rest, by simp [hfold, ← hb], by simp, ?_⟩
        intro t ht
        rw [hfold, ← hb]
        rcases List.mem_cons.mp ht with rfl | ht
        · exact hle
        · rw [hb]
          exact hsuf t (hs ▸ ht)
      · obtain ⟨hb, hs⟩ : best = p ∧ rest = pre2 ++ pyMax best rest :: suf := by
          simpa using hsplit
        refine ⟨best :: q :: pre2, suf, ?_, ?_, ?_⟩
        · rw [hfold, List.cons_append, List.cons_append, ← hs]
        · intro t ht
          rw [hfold]
          have hbestlt : best.2 < (pyMax best rest).2 := by
            have := hpre p (List.mem_cons_self _ _)
            rwa [← hb] at this
          rcases List.mem_cons.mp ht with rfl | ht
          · exact hbestlt
          rcases List.mem_cons.mp ht with rfl | ht
          · exact lt_of_le_of_lt hle hbestlt
          · exact hpre t (List.mem_cons_of_mem _ ht)
        · intro t ht
          rw [hfold]
          exact hsuf t ht

theorem lookup_of_split : ∀ (pre : List (String × ℝ)) (r : String × ℝ)
    (suf : List (String × ℝ)),
    ((pre ++ r :: suf).map Prod.fst).Nodup →
    (pre ++ r :: suf).lookup r.1 = some r.2
  | [], r, suf, _ => by simp [List.lookup]
  | p :: pre, r, suf, hnd => by
    have hnd' : (p.1 :: (pre ++ r :: suf).map Prod.fst).Nodup := by
      simpa using hnd
    obtain ⟨hp, htail⟩ := List.nodup_cons.mp hnd'
    have hmem : r.1 ∈ (pre ++ r :: suf).map Prod.fst :=
      List.mem_map_of_mem _ (List.mem_append_right _ (List.mem_cons_self _ _))
    have hne : p.1 ≠ r.1 := fun h => hp (h ▸ hmem)
    have hbeq : (r.1 == p.1) = false := beq_eq_false_iff_ne.mpr fun h => hne h.symm
    have ih := lookup_of_split pre r suf htail
    simp only [List.cons_append, List.lookup, hbeq]
    exact ih

theorem predict_spec (v : List ℝ) (protos : List (String × List ℝ))
    (hne : protos ≠ [])
    (hdim : ∀ p ∈ protos, (p.2).length = v.length)
    (hnd : (protos.map Prod.fst).Nodup) :
    ∃ pre suf best,
      predict_with_prototypes v protos = .ok (best.1, best.2, pre ++ best :: suf)
      ∧ pre ++ best :: suf = protos.map (fun p => (p.1, cosVal v p.2))
      ∧ (∀ q ∈ pre, q.2 < best.2) ∧ (∀ q ∈ suf, q.2 ≤ best.2) := by
  obtain ⟨p0, rest, rfl⟩ := List.exists_cons_of_ne_nil hne
  have hscores := scoreAll_ok v (p0 :: rest) hdim
  obtain ⟨pre, suf, hsplit, hpre, hsuf⟩ :=
    pyMax_spec (rest.map fun p => (p.1, cosVal v p.2)) (p0.1, cosVal v p0.2)
  refine ⟨pre, suf, _, ?_, ?_, hpre, hsuf⟩
  · have hmapfst :
        (((p0.1, cosVal v p0.2) :: rest.map fun p => (p.1, cosVal v p.2)).map Prod.fst)
          = (p0 :: rest).map Prod.fst := by
      simp
    have hlookup :
        (((p0.1, cosVal v p0.2) :: rest.map fun p => (p.1, cosVal v p.2)).lookup
          (pyMax (p0.1, cosVal v p0.2) (rest.map fun p => (p.1, cosVal v p.2))).1)
        = some (pyMax (p0.1, cosVal v p0.2) (rest.map fun p => (p.1, cosVal v p.2))).2 := by
      rw [hsplit]
      exact lookup_of_split pre _ suf (by rw [← hsplit, hmapfst]; exact hnd)
    simp only [predict_with_prototypes, List.isEmpty_cons, Bool.false_eq_true, if_false,
      List.map_cons] at hscores ⊢
    rw [hscores]
    simp only [hlookup, Option.getD_some]
    rw [hsplit]
  · rw [← hsplit]
    simp

/-- Claim C1 counterexample: prototypes inserted as `b` then `a`, both
with the same vector as the input, tie exactly; the classifier returns
`"b"` (first in iteration order), not the ascending-order least `"a"`. -/
theorem C1_counterexample :
    predict_with_prototypes [(1 : ℝ), 0] [("b", [1, 0]), ("a", [1, 0])]
      = .ok ("b", selfSimUnit, [("b", selfSimUnit), ("a", selfSimUnit)])
    ∧ "a" < "b" := by
  constructor
  · have hs : scoreAll [(1 : ℝ), 0] [("b", [1, 0]), ("a", [1, 0])]
        = .ok [("b", selfSimUnit), ("a", selfSimUnit)] := by
      have h := scoreAll_ok [(1 : ℝ), 0] [("b", [1, 0]), ("a", [1, 0])]
        (by
          intro p hp
          simp only [List.mem_cons, List.not_mem_nil, or_false] at hp
          rcases hp with rfl | rfl <;> simp)
      simpa [selfSimUnit] using h
    simp only [predict_with_prototypes, List.isEmpty_cons, Bool.false_eq_true, if_false]
    rw [hs]
    simp [pyMax, List.lookup, lt_irrefl]
  · rw [String.lt_iff_toList_lt]
    decide

/-- Claim C1 (amended): on a nonempty prototype mapping whose vectors all
match the input's dimension, the classifier returns the first entry
attaining the maximum cosine score in the mapping's iteration (insertion)
order: every earlier score is strictly smaller and every later score is
at most the returned one.  Exact ties are therefore resolved by iteration
order of the underlying mapping, not by ascending label order. -/
theorem C1_predict_first_of_maximum (v : List ℝ) (protos : List (String × List ℝ))
    (hne : protos ≠ [])
    (hdim : ∀ p ∈ protos, (p.2).length = v.length)
    (hnd : (protos.map Prod.fst).Nodup) :
    ∃ pre suf best,
      predict_with_prototypes v protos = .ok (best.1, best.2, pre ++ best :: suf)
      ∧ pre ++ best :: suf = protos.map (fun p => (p.1, cosVal v p.2))
      ∧ (∀ q ∈ pre, q.2 < best.2) ∧ (∀ q ∈ suf, q.2 ≤ best.2) :=
  predict_spec v protos hne hdim hnd

theorem C1_predict_first_of_maximum_witness :
    (([("a", [(1 : ℝ), 0]), ("b", [0, 1])] : List (String × List ℝ)) ≠ []
      ∧ (∀ p ∈ ([("a", [(1 : ℝ), 0]), ("b", [0, 1])] : List (String × List ℝ)),
          (p.2).length = ([(1 : ℝ), 0] : List ℝ).length)
      ∧ (([("a", [(1 : ℝ), 0]), ("b", [0, 1])] : List (String × List ℝ)).map Prod.fst).Nodup)
    ∧ (∃ pre suf best,
        predict_with_prototypes [(1 : ℝ), 0] [("a", [(1 : ℝ), 0]), ("b", [0, 1])]
          = .ok (best.1, best.2, pre ++ best :: suf)
        ∧ pre ++ best :: suf
            = ([("a", [(1 : ℝ), 0]), ("b", [0, 1])] : List (String × List ℝ)).map
                (fun p => (p.1, cosVal [(1 : ℝ), 0] p.2))
        ∧ (∀ q ∈ pre, q.2 < best.2) ∧ (∀ q ∈ suf, q.2 ≤ best.2)) := by
  have h1 : ([("a", [(1 : ℝ), 0]), ("b", [0, 1])] : List (String × List ℝ)) ≠ [] := by
    simp
  have h2 : ∀ p ∈ ([("a", [(1 : ℝ), 0]), ("b", [0, 1])] : List (String × List ℝ)),
      (p.2).length = ([(1 : ℝ), 0] : List ℝ).length := by
    intro p hp
    simp only [List.mem_cons, List.not_mem_nil, or_false] at hp
    rcases hp with rfl | rfl <;> simp
  have h3 : (([("a", [(1 : ℝ), 0]), ("b", [0, 1])] : List (String × List ℝ)).map
      Prod.fst).Nodup := by
    simp
  exact ⟨⟨h1, h2, h3⟩, C1_predict_first_of_maximum [(1 : ℝ), 0] _ h1 h2 h3⟩

/-- Claim C2: a nonempty prototype set of shared dimension `L` and an
input of a different length make classification fail with
`DimensionMismatch` (the `np.dot` shape error), with no partial result. -/
theorem C2_dimension_mismatch (v : List ℝ) (protos : List (String × List ℝ)) (L : ℕ)
    (hne : protos ≠ []) (hL : ∀ p ∈ protos, (p.2).length = L) (hv : v.length ≠ L) :
    predict_with_prototypes v protos = .error .dimensionMismatch := by
  obtain ⟨p0, rest, rfl⟩ := List.exists_cons_of_ne_nil hne
  obtain ⟨lab, proto⟩ := p0
  have h0 : proto.length ≠ v.length := by
    have := hL (lab, proto) (List.mem_cons_self _ _)
    simp only at this
    rw [this]
    exact fun h => hv h.symm
  have hcos := cosine_sim_mismatch v proto h0
  have hsc : scoreAll v ((lab, proto) :: rest) = .error .dimensionMismatch := by
    simp [scoreAll, hcos, Bind.bind, Except.bind]
  simp [predict_with_prototypes, hsc]

theorem C2_dimension_mismatch_witness :
    (([("a", [(0 : ℝ), 0])] : List (String × List ℝ)) ≠ []
      ∧ (∀ p ∈ ([("a", [(0 : ℝ), 0])] : List (String × List ℝ)), (p.2).length = 2)
      ∧ ([(0 : ℝ)] : List ℝ).length ≠ 2)
    ∧ predict_with_prototypes [(0 : ℝ)] [("a", [(0 : ℝ), 0])] = .error .dimensionMismatch := by
  have h1 : ([("a", [(0 : ℝ), 0])] : List (String × List ℝ)) ≠ [] := by simp
  have h2 : ∀ p ∈ ([("a", [(0 : ℝ), 0])] : List (String × List ℝ)), (p.2).length = 2 := by
    intro p hp
    simp only [List.mem_singleton] at hp
    subst hp
    simp
  have h3 : ([(0 : ℝ)] : List ℝ).length ≠ 2 := by simp
  exact ⟨⟨h1, h2, h3⟩, C2_dimension_mismatch [(0 : ℝ)] _ 2 h1 h2 h3⟩

/-- Claim C3: classifying any feature vector against an empty prototype
mapping fails with `EmptyPrototypeSet`; no default label is produced. -/
theorem C3_empty_prototype_set (v : List ℝ) :
    predict_with_prototypes v [] = .error .emptyPrototypeSet := by
  simp [predict_with_prototypes]

/-- Claim C10: on any successful classification the score table has
exactly the prototype mapping's keys in order, the best label is one of
them, and the best score is the table's entry at the best label, which
bounds every score. -/
theorem C10_score_table_complete (v : List ℝ) (protos : List (String × List ℝ))
    (hne : protos ≠ [])
    (hdim : ∀ p ∈ protos, (p.2).length = v.length)
    (hnd : (protos.map Prod.fst).Nodup) :
    ∃ bl bs sc,
      predict_with_prototypes v protos = .ok (bl, bs, sc)
      ∧ sc.map Prod.fst = protos.map Prod.fst
      ∧ bl ∈ sc.map Prod.fst
      ∧ sc.lookup bl = some bs
      ∧ (∀ q ∈ sc, q.2 ≤ bs) := by
  obtain ⟨pre, suf, best, hok, heq, hpre, hsuf⟩ := predict_spec v protos hne hdim hnd
  have hfst : ((pre ++ best :: suf).map Prod.fst) = protos.map Prod.fst := by
    rw [heq, List.map_map]
    rfl
  refine ⟨best.1, best.2, pre ++ best :: suf, hok, hfst, ?_, ?_, ?_⟩
  · exact List.mem_map_of_mem _ (List.mem_append_right _ (List.mem_cons_self _ _))
  · exact lookup_of_split pre best suf (by rw [hfst]; exact hnd)
  · intro q hq
    rcases List.mem_append.mp hq with h | h
    · exact (hpre q h).le
    · rcases List.mem_cons.mp h with rfl | h
      · exact le_rfl
      · exact hsuf q h

theorem C10_score_table_complete_witness :
    (([("a", [(1 : ℝ), 0]), ("b", [0, 1])] : List (String × List ℝ)) ≠ []
      ∧ (∀ p ∈ ([("a", [(1 : ℝ), 0]), ("b", [0, 1])] : List (String × List ℝ)),
          (p.2).length = ([(0 : ℝ), 1] : List ℝ).length)
      ∧ (([("a", [(1 : ℝ), 0]), ("b", [0, 1])] : List (String × List ℝ)).map Prod.fst).Nodup)
    ∧ (∃ bl bs sc,
        predict_with_prototypes [(0 : ℝ), 1] [("a", [(1 : ℝ), 0]), ("b", [0, 1])]
          = .ok (bl, bs, sc)
        ∧ sc.map Prod.fst
            = ([("a", [(1 : ℝ), 0]), ("b", [0, 1])] : List (String × List ℝ)).map Prod.fst
        ∧ bl ∈ sc.map Prod.fst
        ∧ sc.lookup bl = some bs
        ∧ (∀ q ∈ sc, q.2 ≤ bs)) := by
  have h1 : ([("a", [(1 : ℝ), 0]), ("b", [0, 1])] : List (String × List ℝ)) ≠ [] := by
    simp
  have h2 : ∀ p ∈ ([("a", [(1 : ℝ), 0]), ("b", [0, 1])] : List (String × List ℝ)),
      (p.2).length = ([(0 : ℝ), 1] : List ℝ).length := by
    intro p hp
    simp only [List.mem_cons, List.not_mem_nil, or_false] at hp
    rcases hp with rfl | rfl <;> simp
  have h3 : (([("a", [(1 : ℝ), 0]), ("b", [0, 1])] : List (String × List ℝ)).map
      Prod.fst).Nodup := by
    simp
  exact ⟨⟨h1, h2, h3⟩, C10_score_table_complete [(0 : ℝ), 1] _ h1 h2 h3⟩

/-! ### Cosine similarity bounds (claim C8) -/

theorem dotp_eq_sum : ∀ a b : List ℝ,
    dotp a b = ∑ i ∈ Finset.range (min a.length b.length), a.getD i 0 * b.getD i 0
  | [], b => by simp [dotp]
  | x :: xs, [] => by simp [dotp]
  | x :: xs, y :: ys => by
    have ih := dotp_eq_sum xs ys
    simp only [dotp, List.zip_cons_cons, List.map_cons, List.sum_cons] at ih ⊢
    rw [List.length_cons, List.length_cons, Nat.succ_min_succ, Finset.sum_range_succ']
    simp only [List.getD_cons_succ, List.getD_cons_zero]
    rw [ih]
    ring

theorem dotp_self_eq_sum (v : List ℝ) :
    dotp v v = ∑ i ∈ Finset.range v.length, v.getD i 0 ^ 2 := by
  rw [dotp_eq_sum, min_self]
  exact Finset.sum_congr rfl fun i _ => (sq (v.getD i 0)).symm

theorem dotp_self_nonneg (v : List ℝ) : 0 ≤ dotp v v := by
  rw [dotp_self_eq_sum]
  exact Finset.sum_nonneg fun i _ => sq_nonneg _

theorem normE_nonneg (v : List ℝ) : 0 ≤ normE v :=
  Real.sqrt_nonneg _

theorem sq_normE (v : List ℝ) : normE v ^ 2 = dotp v v :=
  Real.sq_sqrt (dotp_self_nonneg v)

theorem dotp_map_div : ∀ (a b : List ℝ) (s t : ℝ),
    dotp (a.map fun u => u / s) (b.map fun u => u / t) = dotp a b / (s * t)
  | [], b, s, t => by simp [dotp]
  | x :: xs, [], s, t => by simp [dotp]
  | x :: xs, y :: ys, s, t => by
    have ih := dotp_map_div xs ys s t
    simp only [dotp, List.map_cons, List.zip_cons_cons, List.sum_cons] at ih ⊢
    rw [ih, div_mul_div_comm, add_div]

theorem cosVal_eq (a b : List ℝ) :
    cosVal a b = dotp a b / ((normE a + eps) * (normE b + eps)) := by
  simp only [cosVal, l2_normalize]
  exact dotp_map_div a b _ _

theorem abs_dotp_le (a b : List ℝ) : |dotp a b| ≤ normE a * normE b := by
  have hA : dotp a a = ∑ i ∈ Finset.range a.length, a.getD i 0 ^ 2 := dotp_self_eq_sum a
  have hB : dotp b b = ∑ i ∈ Finset.range b.length, b.getD i 0 ^ 2 := dotp_self_eq_sum b
  have hApre : (∑ i ∈ Finset.range (min a.length b.length), a.getD i 0 ^ 2) ≤ dotp a a := by
    rw [hA]
    exact Finset.sum_le_sum_of_subset_of_nonneg
      (Finset.range_subset.mpr (min_le_left _ _)) fun i _ _ => sq_nonneg _
  have hBpre : (∑ i ∈ Finset.range (min a.length b.length), b.getD i 0 ^ 2) ≤ dotp b b := by
    rw [hB]
    exact Finset.sum_le_sum_of_subset_of_nonneg
      (Finset.range_subset.mpr (min_le_right _ _)) fun i _ _ => sq_nonneg _
  have hpre1 : (0:ℝ) ≤ ∑ i ∈ Finset.range (min a.length b.length), a.getD i 0 ^ 2 :=
    Finset.sum_nonneg fun i _ => sq_nonneg _
  have hpre2 : (0:ℝ) ≤ ∑ i ∈ Finset.range (min a.length b.length), b.getD i 0 ^ 2 :=
    Finset.sum_nonneg fun i _ => sq_nonneg _
  have hcs := Finset.sum_mul_sq_le_sq_mul_sq (Finset.range (min a.length b.length))
    (fun i => a.getD i 0) (fun i => b.getD i 0)
  have hsq : dotp a b ^ 2 ≤ dotp a a * dotp b b := by
    rw [dotp_eq_sum]
    calc (∑ i ∈ Finset.range (min a.length b.length), a.getD i 0 * b.getD i 0) ^ 2
        ≤ (∑ i ∈ Finset.range (min a.length b.length), a.getD i 0 ^ 2)
          * ∑ i ∈ Finset.range (min a.length b.length), b.getD i 0 ^ 2 := hcs
      _ ≤ dotp a a * dotp b b := mul_le_mul hApre hBpre hpre2 (le_trans hpre1 hApre)
  calc |dotp a b| = Real.sqrt (dotp a b ^ 2) := (Real.sqrt_sq_eq_abs _).symm
    _ ≤ Real.sqrt (dotp a a * dotp b b) := Real.sqrt_le_sqrt hsq
    _ = normE a * normE b := by
        rw [Real.sqrt_mul (dotp_self_nonneg a)]
        rfl

theorem eps_pos : (0 : ℝ) < eps := by norm_num [eps]

/-- Claim C8 (amended): every cosine score lies in `[-1, 1]`; and the
self-similarity of a vector `v` equals `‖v‖²/(‖v‖+eps)²`, which lies
within `3·eps/‖v‖` of `1` whenever `eps ≤ ‖v‖` — but NOT for nonzero
vectors whose norm is comparable to `eps` (see the counterexample). -/
theorem C8_cosine_sim_bounds :
    (∀ a b : List ℝ, -1 ≤ cosVal a b ∧ cosVal a b ≤ 1)
    ∧ (∀ v : List ℝ, eps ≤ normE v →
        1 - 3 * eps / normE v ≤ cosVal v v ∧ cosVal v v ≤ 1) := by
  constructor
  · intro a b
    have hNa := normE_nonneg a
    have hNb := normE_nonneg b
    have hD : (0:ℝ) < (normE a + eps) * (normE b + eps) :=
      mul_pos (by linarith [eps_pos]) (by linarith [eps_pos])
    have habs : |cosVal a b| ≤ 1 := by
      rw [cosVal_eq, abs_div, abs_of_pos hD]
      rw [div_le_one hD]
      calc |dotp a b| ≤ normE a * normE b := abs_dotp_le a b
        _ ≤ (normE a + eps) * (normE b + eps) := by nlinarith [eps_pos]
    exact abs_le.mp habs
  · intro v hv
    have hN : (0:ℝ) < normE v := lt_of_lt_of_le eps_pos hv
    have hNe : (0:ℝ) < normE v + eps := by linarith [eps_pos]
    have hval : cosVal v v = normE v ^ 2 / (normE v + eps) ^ 2 := by
      rw [cosVal_eq, sq_normE, sq]
    constructor
    · rw [hval]
      have h1 : 1 - 3 * eps / normE v = (normE v - 3 * eps) / normE v := by
        field_simp
      rw [h1, div_le_div_iff₀ hN (by positivity)]
      nlinarith [eps_pos, sq_nonneg (normE v), sq_nonneg eps]
    · rw [hval, div_le_one (by positivity)]
      nlinarith [eps_pos]

theorem C8_cosine_sim_bounds_witness :
    (eps ≤ normE [(1 : ℝ), 0]
      ∧ (1 - 3 * eps / normE [(1 : ℝ), 0] ≤ cosVal [(1 : ℝ), 0] [(1 : ℝ), 0]
          ∧ cosVal [(1 : ℝ), 0] [(1 : ℝ), 0] ≤ 1))
    ∧ (-1 ≤ cosVal [(1 : ℝ), 0] [(0 : ℝ), 1] ∧ cosVal [(1 : ℝ), 0] [(0 : ℝ), 1] ≤ 1) := by
  have hnorm : normE [(1 : ℝ), 0] = 1 := by
    have : dotp [(1 : ℝ), 0] [(1 : ℝ), 0] = 1 := by
      simp [dotp]
    rw [normE, this, Real.sqrt_one]
  have h : eps ≤ normE [(1 : ℝ), 0] := by
    rw [hnorm]; norm_num [eps]
  exact ⟨⟨h, C8_cosine_sim_bounds.2 [(1 : ℝ), 0] h⟩,
    C8_cosine_sim_bounds.1 [(1 : ℝ), 0] [(0 : ℝ), 1]⟩

/-- Claim C8 counterexample: the nonzero vector `[1e-13]` has
self-similarity exactly `1/121 ≈ 0.0083`, nowhere near `1.0`: with the
`eps = 1e-12` guard, "similarity of any nonzero vector with itself is 1.0
within floating tolerance" fails for vectors of norm comparable to the
guard. -/
theorem C8_counterexample :
    cosine_sim tinyV tinyV = .ok (cosVal tinyV tinyV)
    ∧ cosVal tinyV tinyV = 1 / 121
    ∧ tinyV ≠ [(0 : ℝ)]
    ∧ (1 : ℝ) / 121 < 1 / 2 := by
  refine ⟨cosine_sim_ok _ _ rfl, ?_, ?_, by norm_num⟩
  · have hdot : dotp tinyV tinyV = (1 / 10 ^ 13 : ℝ) ^ 2 := by
      simp [dotp, tinyV]
      ring
    have hnorm : normE tinyV = 1 / 10 ^ 13 := by
      rw [normE, hdot, Real.sqrt_sq (by norm_num)]
    rw [cosVal_eq, hdot, hnorm]
    norm_num [eps]
  · simp only [tinyV, ne_eq, List.cons.injEq, and_true]
    norm_num

/-! ### Prototype building (claim C6) -/

theorem build_class_prototypes_ok :
    ∀ (fbl : List (String × List (List ℝ))) (protos : List (String × List ℝ)),
      build_class_prototypes fbl = .ok protos →
      protos = fbl.map fun p => (p.1, l2_normalize (meanVec p.2))
  | [], protos, h => by
    simp only [build_class_prototypes, Except.ok.injEq] at h
    simp [← h]
  | (lab, feats) :: rest, protos, h => by
    simp only [build_class_prototypes] at h
    by_cases hbad : feats.length = 0 ∨ ¬ feats.all fun r => r.length = (feats.headD []).length
    · rw [if_pos hbad] at h
      exact absurd h (by simp)
    · rw [if_neg hbad] at h
      cases hrest : build_class_prototypes rest with
      | error e =>
        rw [hrest] at h
        exact absurd h (by simp [Bind.bind, Except.bind])
      | ok tail =>
        rw [hrest] at h
        simp only [Bind.bind, Except.bind, Except.ok.injEq] at h
        have ih := build_class_prototypes_ok rest tail hrest
        simp [← h, ih]

theorem meanVec_example : meanVec [([2, 0] : List ℝ), [0, 2]] = [1, 1] := by
  simp only [meanVec]
  norm_num [List.range_succ]

theorem build_example :
    build_class_prototypes [("a", [[2, 0], [0, 2]])]
      = .ok [("a", l2_normalize (meanVec [[2, 0], [0, 2]]))] := by
  simp [build_class_prototypes, Bind.bind, Except.bind]

theorem sqrt_two_lt_two : Real.sqrt 2 < 2 := by
  nlinarith [Real.sq_sqrt (show (0:ℝ) ≤ 2 by norm_num), Real.sqrt_nonneg 2]

theorem one_le_sqrt_two : (1 : ℝ) ≤ Real.sqrt 2 := by
  nlinarith [Real.sq_sqrt (show (0:ℝ) ≤ 2 by norm_num), Real.sqrt_nonneg 2]

theorem normE_one_one : normE [(1 : ℝ), 1] = Real.sqrt 2 := by
  have : dotp [(1 : ℝ), 1] [(1 : ℝ), 1] = 2 := by
    simp [dotp]
    norm_num
  rw [normE, this]

theorem normE_two_zero : normE [(2 : ℝ), 0] = 2 := by
  have : dotp [(2 : ℝ), 0] [(2 : ℝ), 0] = 4 := by
    simp [dotp]
    norm_num
  rw [normE, this, show (4:ℝ) = 2 ^ 2 by norm_num, Real.sqrt_sq (by norm_num)]

theorem normE_zero_two : normE [(0 : ℝ), 2] = 2 := by
  have : dotp [(0 : ℝ), 2] [(0 : ℝ), 2] = 4 := by
    simp [dotp]
    norm_num
  rw [normE, this, show (4:ℝ) = 2 ^ 2 by norm_num, Real.sqrt_sq (by norm_num)]

/-- Claim C6: a stored prototype is always the L2-normalization (with the
source's epsilon guard) of the arithmetic mean of the label's raw feature
vectors — normalization once, after averaging.  On the spec's concrete
example `[2,0], [0,2]` the mean is `[1,1]`, the stored prototype is
`l2_normalize [1,1]` (whose head is within `eps` of `1/√2`), and it
differs from the mean of the individually normalized vectors. -/
theorem C6_prototype_normalized_mean :
    (∀ (fbl : List (String × List (List ℝ))) (protos : List (String × List ℝ)),
      build_class_prototypes fbl = .ok protos →
      protos = fbl.map fun p => (p.1, l2_normalize (meanVec p.2)))
    ∧ meanVec [([2, 0] : List ℝ), [0, 2]] = [1, 1]
    ∧ build_class_prototypes [("a", [[2, 0], [0, 2]])] = .ok [("a", l2_normalize [1, 1])]
    ∧ l2_normalize [1, 1] ≠ meanVec [l2_normalize [2, 0], l2_normalize [0, 2]]
    ∧ |(l2_normalize [(1 : ℝ), 1]).getD 0 0 - 1 / Real.sqrt 2| ≤ eps := by
  have hs2 : (0:ℝ) < Real.sqrt 2 := lt_of_lt_of_le one_pos one_le_sqrt_two
  have hsq : Real.sqrt 2 ^ 2 = 2 := Real.sq_sqrt (by norm_num)
  have hl2head : (l2_normalize [(1 : ℝ), 1]).getD 0 0 = 1 / (Real.sqrt 2 + eps) := by
    simp [l2_normalize, normE_one_one]
  refine ⟨build_class_prototypes_ok, meanVec_example, ?_, ?_, ?_⟩
  · rw [build_example, meanVec_example]
  · intro hcontra
    have hhead := congrArg (fun l => l.getD 0 0) hcontra
    simp only at hhead
    have hmean : (meanVec [l2_normalize [2, 0], l2_normalize [0, 2]]).getD 0 0
        = 1 / (2 + eps) := by
      have h2 : (0 : ℝ) < 2 + eps := by linarith [eps_pos]
      simp [meanVec, l2_normalize, normE_two_zero, normE_zero_two, List.range_succ]
      rw [div_div, show ((2 : ℝ) + eps) * 2 = 2 * (2 + eps) by ring, ← div_div]
      norm_num
    rw [hl2head, hmean] at hhead
    have h1 : Real.sqrt 2 + eps ≠ 0 := ne_of_gt (by linarith [eps_pos])
    have h2 : (2 : ℝ) + eps ≠ 0 := ne_of_gt (by linarith [eps_pos])
    have := (div_eq_div_iff h1 h2).mp hhead
    have : Real.sqrt 2 = 2 := by linarith
    exact absurd this (ne_of_lt sqrt_two_lt_two)
  · rw [hl2head, abs_sub_comm]
    have hle : 1 / (Real.sqrt 2 + eps) ≤ 1 / Real.sqrt 2 :=
      one_div_le_one_div_of_le hs2 (by linarith [eps_pos])
    rw [abs_of_nonneg (by linarith)]
    have hne : Real.sqrt 2 + eps ≠ 0 := ne_of_gt (by linarith [eps_pos])
    have hkey : 1 / Real.sqrt 2 - 1 / (Real.sqrt 2 + eps)
        = eps / (Real.sqrt 2 * (Real.sqrt 2 + eps)) := by
      rw [div_sub_div _ _ (ne_of_gt hs2) hne]
      congr 1
      ring
    rw [hkey]
    apply div_le_self (le_of_lt eps_pos)
    nlinarith [eps_pos]

theorem C6_prototype_normalized_mean_witness :
    build_class_prototypes [("a", [[2, 0], [0, 2]])]
      = .ok [("a", l2_normalize (meanVec [[2, 0], [0, 2]]))]
    ∧ [("a", l2_normalize (meanVec [[2, 0], [0, 2]]))]
      = ([("a", [[2, 0], [0, 2]])] : List (String × List (List ℝ))).map
          fun p => (p.1, l2_normalize (meanVec p.2)) :=
  ⟨build_example, C6_prototype_normalized_mean.1 _ _ build_example⟩

/-! ### Minmax normalization on zero-range input (claim C7) -/

theorem foldl_min_le : ∀ (l : List ℝ) (a : ℝ),
    l.foldl min a ≤ a ∧ ∀ t ∈ l, l.foldl min a ≤ t
  | [], a => ⟨le_rfl, by simp⟩
  | x :: xs, a => by
    obtain ⟨h1, h2⟩ := foldl_min_le xs (min a x)
    refine ⟨h1.trans (min_le_left a x), ?_⟩
    intro t ht
    rcases List.mem_cons.mp ht with rfl | ht
    · exact h1.trans (min_le_right a t)
    · exact h2 t ht

theorem le_foldl_max : ∀ (l : List ℝ) (a : ℝ),
    a ≤ l.foldl max a ∧ ∀ t ∈ l, t ≤ l.foldl max a
  | [], a => ⟨le_rfl, by simp⟩
  | x :: xs, a => by
    obtain ⟨h1, h2⟩ := le_foldl_max xs (max a x)
    refine ⟨(le_max_left a x).trans h1, ?_⟩
    intro t ht
    rcases List.mem_cons.mp ht with rfl | ht
    · exact (le_max_right a t).trans h1
    · exact h2 t ht

theorem listMin_le (y : List ℝ) (t : ℝ) (ht : t ∈ y) : listMin y ≤ t :=
  (foldl_min_le y _).2 t ht

theorem le_listMax (y : List ℝ) (t : ℝ) (ht : t ∈ y) : t ≤ listMax y :=
  (le_foldl_max y _).2 t ht

/-- Claim C7 (amended): on a zero-range signal the array preprocessor's
minmax block divides by one and returns the all-zero signal; the CSV
pipeline's `normalize_minmax`, however, returns such a signal UNCHANGED
(its guard `max−min < 1e-12` short-circuits before any shift), which is
all zeros only when the input already was.  Neither divides by zero. -/
theorem C7_minmax_degenerate :
    (∀ y : List ℝ, listMax y = listMin y →
      minmax_scale y = List.replicate y.length 0)
    ∧ (∀ y : List ℝ, listMax y - listMin y < 1 / 10 ^ 12 →
      normalize_minmax y = y) := by
  constructor
  · intro y h
    have hall : ∀ t ∈ y, t = listMin y := fun t ht =>
      le_antisymm (h ▸ le_listMax y t ht) (listMin_le y t ht)
    simp only [minmax_scale]
    rw [List.map_congr_left (g := fun _ => (0:ℝ)) ?_, List.map_const']
    intro t ht
    rw [hall t ht]
    simp
  · intro y h
    simp only [normalize_minmax]
    rw [if_pos h]

/-- Claim C7 counterexample: a constant 20-point signal of value 1 has
zero range, yet `normalize_minmax` returns it unchanged — not the
all-zero signal the claim demands. -/
theorem C7_counterexample :
    normalize_minmax constSig = constSig
    ∧ listMax constSig - listMin constSig = 0
    ∧ constSig ≠ List.replicate constSig.length 0 := by
  have hmin : listMin constSig = 1 := by
    simp [constSig, listMin, List.foldl]
  have hmax : listMax constSig = 1 := by
    simp [constSig, listMax, List.foldl]
  refine ⟨?_, by rw [hmin, hmax]; ring, ?_⟩
  · simp only [normalize_minmax]
    rw [if_pos (by rw [hmin, hmax]; norm_num)]
  · intro hcontra
    have := congrArg (fun l => l.headD (5:ℝ)) hcontra
    simp [constSig] at this

theorem C7_minmax_degenerate_witness :
    (listMax constSig = listMin constSig
      ∧ minmax_scale constSig = List.replicate constSig.length 0)
    ∧ (listMax constSig - listMin constSig < 1 / 10 ^ 12
      ∧ normalize_minmax constSig = constSig) := by
  have hmin : listMin constSig = 1 := by
    simp [constSig, listMin, List.foldl]
  have hmax : listMax constSig = 1 := by
    simp [constSig, listMax, List.foldl]
  have h1 : listMax constSig = listMin constSig := by rw [hmin, hmax]
  have h2 : listMax constSig - listMin constSig < 1 / 10 ^ 12 := by
    rw [hmin, hmax]
    norm_num
  exact ⟨⟨h1, C7_minmax_degenerate.1 constSig h1⟩,
    ⟨h2, C7_minmax_degenerate.2 constSig h2⟩⟩

/-! ### Feature vector length (claim C5) -/

theorem findPeaksProm_snd_length {α : Type} [LinearOrderedRing α]
    (y : List α) (promMin : α) :
    (findPeaksProm y promMin).2.length = (findPeaksProm y promMin).1.length := by
  simp [findPeaksProm]

theorem peakFeatures_lengths {α : Type} [LinearOrderedRing α] (x y : List α)
    (maxPeaks : ℕ) (promMin : α) :
    (peakFeatures x y maxPeaks promMin).2.1.length = maxPeaks
    ∧ (peakFeatures x y maxPeaks promMin).2.2.1.length = maxPeaks
    ∧ (peakFeatures x y maxPeaks promMin).2.2.2.length = maxPeaks := by
  simp only [peakFeatures]
  by_cases h : (findPeaksProm y promMin).1.length = 0
  · simp [h]
  · rw [if_neg h]
    have hsorted :
        ((List.insertionSort (fun i j => y.getD i 0 ≤ y.getD j 0)
          (findPeaksProm y promMin).1).reverse).length
        = (findPeaksProm y promMin).1.length := by
      simp [List.length_insertionSort]
    have hprms := findPeaksProm_snd_length y promMin
    refine ⟨?_, ?_, ?_⟩ <;>
      simp only [List.length_append, List.length_map, List.length_take,
        List.length_replicate, hsorted, hprms] <;>
      omega

/-- Claim C5: for equal-length inputs of at least 10 samples the feature
extractor succeeds and its output vector has length exactly
`17 + 3·max_peaks`, for every `max_peaks`, whether or not peak detection
is available, and however many peaks are detected. -/
theorem C5_feature_vector_length (x y : List ℝ) (maxPeaks : ℕ) (peakProm : ℝ)
    (avail : Bool) (hlen : x.length = y.length) (h10 : 10 ≤ x.length) :
    ∃ v, extract_raman_features x y maxPeaks peakProm avail = .ok v
      ∧ v.length = 17 + 3 * maxPeaks := by
  simp only [extract_raman_features]
  rw [if_neg (by omega)]
  refine ⟨_, rfl, ?_⟩
  cases avail with
  | false =>
    simp
    omega
  | true =>
    obtain ⟨h1, h2, h3⟩ := peakFeatures_lengths x y maxPeaks
      (peakProm * (if listMax y ≠ listMin y then listMax y - listMin y else 1))
    simp only [if_true, List.length_append, h1, h2, h3]
    simp
    omega

theorem C5_feature_vector_length_witness :
    (([0, 1, 2, 3, 4, 5, 6, 7, 8, 9] : List ℝ).length
        = ([0, 1, 2, 3, 4, 5, 6, 7, 8, 9] : List ℝ).length
      ∧ 10 ≤ ([0, 1, 2, 3, 4, 5, 6, 7, 8, 9] : List ℝ).length)
    ∧ ∃ v, extract_raman_features [0, 1, 2, 3, 4, 5, 6, 7, 8, 9]
        [0, 1, 2, 3, 4, 5, 6, 7, 8, 9] 10 (2 / 100) true = .ok v
        ∧ v.length = 17 + 3 * 10 := by
  have h2 : 10 ≤ ([0, 1, 2, 3, 4, 5, 6, 7, 8, 9] : List ℝ).length := by simp
  exact ⟨⟨rfl, h2⟩, C5_feature_vector_length _ _ 10 (2 / 100) true rfl h2⟩

/-! ### Sorting behaviour of the two preprocessors (claim C9) -/

theorem sorted_map_fst (l : List (ℝ × ℝ))
    (h : l.Sorted fun p q : ℝ × ℝ => p.1 ≤ q.1) :
    (l.map Prod.fst).Sorted (· ≤ ·) :=
  (List.pairwise_map).mpr h

theorem sort_pairs_sorted (x y : List ℝ) :
    (sort_pairs x y).Sorted fun p q : ℝ × ℝ => p.1 ≤ q.1 := by
  haveI : IsTotal (ℝ × ℝ) (fun p q : ℝ × ℝ => p.1 ≤ q.1) :=
    ⟨fun a b => le_total a.1 b.1⟩
  haveI : IsTrans (ℝ × ℝ) (fun p q : ℝ × ℝ => p.1 ≤ q.1) :=
    ⟨fun _ _ _ h1 h2 => le_trans h1 h2⟩
  exact List.sorted_insertionSort _ _

theorem crop_pairs_sorted (crop : Option (ℝ × ℝ)) (l : List (ℝ × ℝ))
    (h : l.Sorted fun p q : ℝ × ℝ => p.1 ≤ q.1) :
    (crop_pairs crop l).Sorted fun p q : ℝ × ℝ => p.1 ≤ q.1 := by
  cases crop with
  | none => exact h
  | some c =>
    obtain ⟨lo, hi⟩ := c
    simp only [crop_pairs]
    split
    · exact h.filter _
    · exact h

theorem preprocess_array_eq_minmax (x y : List ℝ) (crop : Option (ℝ × ℝ))
    (sw bd : ℕ) (hlen : x.length = y.length) (h20 : 20 ≤ x.length) :
    preprocess_spectrum_array x y crop sw bd "minmax"
      = .ok ⟨(crop_pairs crop (sort_pairs x y)).map Prod.fst,
             (crop_pairs crop (sort_pairs x y)).map Prod.snd,
             minmax_scale (baseline_corrected (crop_pairs crop (sort_pairs x y)) sw bd)⟩ := by
  simp only [preprocess_spectrum_array]
  rw [if_neg (by omega), if_neg (by omega)]
  simp

theorem preprocess_array_eq_zscore (x y : List ℝ) (crop : Option (ℝ × ℝ))
    (sw bd : ℕ) (hlen : x.length = y.length) (h20 : 20 ≤ x.length) :
    preprocess_spectrum_array x y crop sw bd "zscore"
      = .ok ⟨(crop_pairs crop (sort_pairs x y)).map Prod.fst,
             (crop_pairs crop (sort_pairs x y)).map Prod.snd,
             zscore_scale (baseline_corrected (crop_pairs crop (sort_pairs x y)) sw bd)⟩ := by
  simp only [preprocess_spectrum_array]
  rw [if_neg (by omega), if_neg (by omega)]
  simp

theorem preprocess_array_eq_none (x y : List ℝ) (crop : Option (ℝ × ℝ))
    (sw bd : ℕ) (hlen : x.length = y.length) (h20 : 20 ≤ x.length) :
    preprocess_spectrum_array x y crop sw bd "none"
      = .ok ⟨(crop_pairs crop (sort_pairs x y)).map Prod.fst,
             (crop_pairs crop (sort_pairs x y)).map Prod.snd,
             baseline_corrected (crop_pairs crop (sort_pairs x y)) sw bd⟩ := by
  simp only [preprocess_spectrum_array]
  rw [if_neg (by omega), if_neg (by omega)]
  simp

/-- Claim C9 (amended): the array preprocessor does sort by wavenumber,
but only guarantees a NON-strictly increasing `x` (duplicate wavenumbers
survive sorting); the CSV preprocessor rejects spectra with zero adjacent
x-differences but never sorts, returning `x` exactly as given. -/
theorem C9_sorting_behaviour :
    (∀ (x y : List ℝ) (crop : Option (ℝ × ℝ)) (sw bd : ℕ) (nm : String),
        x.length = y.length → 20 ≤ x.length →
        nm = "minmax" ∨ nm = "zscore" ∨ nm = "none" →
        ∃ out, preprocess_spectrum_array x y crop sw bd nm = .ok out
          ∧ out.x.Sorted (· ≤ ·))
    ∧ (∀ x y : List ℝ,
        (y.all fun t => decide (|t - y.headD 0| ≤ 1 / 10 ^ 8 + 1 / 10 ^ 5 * |y.headD 0|))
          = false →
        ((diffs x).any fun t => decide (t = 0)) = false →
        ∃ out, preprocess_spectrum x y = .ok out ∧ out.x = x) := by
  constructor
  · intro x y crop sw bd nm hlen h20 hnm
    have hx : ((crop_pairs crop (sort_pairs x y)).map Prod.fst).Sorted (· ≤ ·) :=
      sorted_map_fst _ (crop_pairs_sorted crop _ (sort_pairs_sorted x y))
    rcases hnm with rfl | rfl | rfl
    · exact ⟨_, preprocess_array_eq_minmax x y crop sw bd hlen h20, hx⟩
    · exact ⟨_, preprocess_array_eq_zscore x y crop sw bd hlen h20, hx⟩
    · exact ⟨_, preprocess_array_eq_none x y crop sw bd hlen h20, hx⟩
  · intro x y hconst hdup
    refine ⟨⟨x, y, normalize_minmax (baseline_subtract (moving_average_same y 11) 3)⟩,
      ?_, rfl⟩
    simp only [preprocess_spectrum, hconst, hdup]
    simp

theorem sorted_zip_fst : ∀ x y : List ℝ, x.Sorted (· ≤ ·) →
    (x.zip y).Sorted fun p q : ℝ × ℝ => p.1 ≤ q.1
  | [], _, _ => by simp
  | a :: xs, [], _ => by simp
  | a :: xs, b :: ys, h => by
    rw [List.zip_cons_cons, List.sorted_cons]
    obtain ⟨h1, h2⟩ := List.sorted_cons.mp h
    refine ⟨?_, sorted_zip_fst xs ys h2⟩
    intro q hq
    exact h1 q.1 (List.of_mem_zip hq).1

/-- Claim C9 counterexample: a 20-point spectrum whose (already sorted)
wavenumber axis contains the value 10 twice is accepted by the array
preprocessor, and the returned `x` equals that axis — which is NOT
strictly increasing.  Sorting does not deduplicate. -/
theorem C9_counterexample :
    (preprocess_spectrum_array xdup xdup none 9 3 "minmax").map ConditionedSpectrum.x
      = .ok xdup
    ∧ ¬ xdup.Chain' (· < ·)
    ∧ ¬ xdup.Pairwise (· < ·) := by
  have hchain : xdup.Chain' (· ≤ ·) := by
    norm_num [xdup, List.chain'_cons]
  have hxs : xdup.Sorted (· ≤ ·) := List.chain'_iff_pairwise.mp hchain
  have hsortid : sort_pairs xdup xdup = xdup.zip xdup :=
    List.Sorted.insertionSort_eq (sorted_zip_fst xdup xdup hxs)
  have hnc : ¬ xdup.Chain' (· < ·) := by
    norm_num [xdup, List.chain'_cons]
  refine ⟨?_, hnc, fun hp => hnc hp.chain'⟩
  rw [preprocess_array_eq_minmax xdup xdup none 9 3 rfl (by norm_num [xdup])]
  simp only [Except.map, crop_pairs, hsortid]
  rw [List.map_fst_zip _ _ (le_refl _)]

theorem C9_sorting_behaviour_witness :
    (xdup.length = xdup.length ∧ 20 ≤ xdup.length
      ∧ (("minmax" : String) = "minmax" ∨ ("minmax" : String) = "zscore"
          ∨ ("minmax" : String) = "none")
      ∧ ∃ out, preprocess_spectrum_array xdup xdup none 9 3 "minmax" = .ok out
          ∧ out.x.Sorted (· ≤ ·))
    ∧ ((ycsv.all fun t => decide (|t - ycsv.headD 0| ≤ 1 / 10 ^ 8 + 1 / 10 ^ 5 * |ycsv.headD 0|))
          = false
      ∧ ((diffs xcsv).any fun t => decide (t = 0)) = false
      ∧ ∃ out, preprocess_spectrum xcsv ycsv = .ok out ∧ out.x = xcsv) := by
  have h20 : 20 ≤ xdup.length := by norm_num [xdup]
  have hconst : (ycsv.all fun t =>
      decide (|t - ycsv.headD 0| ≤ 1 / 10 ^ 8 + 1 / 10 ^ 5 * |ycsv.headD 0|)) = false := by
    simp only [ycsv, List.all_eq_false]
    refine ⟨1, by norm_num, ?_⟩
    norm_num
  have hdup : ((diffs xcsv).any fun t => decide (t = 0)) = false := by
    simp only [xcsv, diffs, List.any_eq_false]
    norm_num
  refine ⟨⟨rfl, h20, Or.inl rfl,
      C9_sorting_behaviour.1 xdup xdup none 9 3 "minmax" rfl h20 (Or.inl rfl)⟩,
    hconst, hdup, C9_sorting_behaviour.2 xcsv ycsv hconst hdup⟩

/-! ### Peak prominence misalignment (claim C4) -/

/-- Claim C4 evidence: on the two-peak signal `yPeaks` with prominence
threshold `6` (what the source computes from `peak_prominence = 0.02` and
the signal range `300`), the peak block returns positions `[5, 1]` and
heights `[300, 100]` ranked by height descending, but prominences
`[100, 300]` in original detection order: slot 0 pairs the height-300
peak with the prominence of the height-100 peak.  The aligned prominences
of the ranked peaks `[5, 1]` are `[300, 100]` (second conjunct), which is
what the comment `reorder similarly` in the source intends. -/
theorem C4_prominence_misalignment :
    peakFeatures xPeaks yPeaks 10 6
      = (2, [5, 1, 0, 0, 0, 0, 0, 0, 0, 0], [300, 100, 0, 0, 0, 0, 0, 0, 0, 0],
         [100, 300, 0, 0, 0, 0, 0, 0, 0, 0])
    ∧ peakProminences yPeaks [5, 1] = [300, 100] :=
  ⟨by decide, by decide⟩
